import Mathlib

/-!
Verification development for the MultiTF-EMA-Backtest repository.

Shallow embedding of the backtest simulation engine
(src/backtesting.py, function backtest_strategy) and of the trend
indicator (src/technical_indicators.py, function determine_trend).

Prices, EMAs and capital are modelled as exact rationals; timestamps as
naturals.  A bar field that fails the float(...) conversion in the
source's try/except block is modelled as an Option that is none.
-/

/-- Higher-timeframe trend, the three string outcomes of determine_trend. -/
inductive Trend where
  | Bullish
  | Bearish
  | Neutral
deriving DecidableEq, Repr, Inhabited

/-- Position direction, the 'Long' / 'Short' strings of the source. -/
inductive Dir where
  | Long
  | Short
deriving DecidableEq, Repr, Inhabited

/-- Exit reasons written into the trade ledger by backtest_strategy. -/
inductive Reason where
  | NewSignal
  | TrendChange
  | StopLoss
  | TakeProfit
deriving DecidableEq, Repr, Inhabited

/-- One lower-timeframe row: a field is none when the float(...) conversion
of the source would raise ValueError/TypeError (non-numeric data). -/
structure Bar where
  ts : ℕ
  high : Option ℚ
  low : Option ℚ
  close : Option ℚ
  emaShort : Option ℚ
  emaLong : Option ℚ
deriving DecidableEq, Repr, Inhabited

/-- One higher-timeframe candle as consumed by determine_trend: only its
timestamp and the two EMA columns matter. -/
structure HCandle where
  ts : ℕ
  emaShort : ℚ
  emaLong : ℚ
deriving DecidableEq, Repr, Inhabited

/-- Trend classification of a single candle, lines 42-47 of
technical_indicators.py: compare EMA_Short against EMA_Long. -/
def trendOf (c : HCandle) : Trend :=
  if c.emaShort > c.emaLong then Trend.Bullish
  else if c.emaShort < c.emaLong then Trend.Bearish
  else Trend.Neutral

/-- determine_trend of technical_indicators.py: filter the higher-timeframe
series to candles with timestamp at most the query timestamp, take the last
such candle (iloc[-1] of the filtered frame), return Neutral when the
filtered frame is empty, otherwise classify that candle's EMAs. -/
def determine_trend (higher : List HCandle) (ts : ℕ) : Trend :=
  match (higher.filter (fun c => c.ts ≤ ts)).getLast? with
  | none => Trend.Neutral
  | some c => trendOf c

/-- One completed position lifecycle, the dict appended to the trades list
(keys Entry, Exit, Type, P and L, Date, Reason, Size). -/
structure Trade where
  entry : ℚ
  exit_price : ℚ
  side : Dir
  pnl : ℚ
  date : ℕ
  reason : Reason
  size : ℚ
deriving DecidableEq, Repr, Inhabited

/-- One row of the equity curve: parallel lists dates / portfolio_value /
positions_size of the source, bundled per row. -/
structure EquityPoint where
  ts : ℕ
  portfolio_value : ℚ
  position_size : ℚ
deriving DecidableEq, Repr, Inhabited

/-- Strategy parameters of backtest_strategy (risk_reward mirrors the
source's risk_reward_ratio argument). -/
structure Params where
  lot_size : ℚ
  risk_percent : ℚ
  risk_reward : ℚ
deriving DecidableEq, Repr, Inhabited

/-- The mutable engine state of the loop of backtest_strategy: the returns
field models returns_df (one (timestamp, value) row per lower bar). -/
structure EngineState where
  trades : List Trade
  position : Option Dir
  entry_price : ℚ
  stop_loss : ℚ
  take_profit : ℚ
  capital : ℚ
  equity : List EquityPoint
  signalLong : ℕ
  signalShort : ℕ
  returns : List (ℕ × ℚ)
deriving DecidableEq, Repr, Inhabited

/-- PnL of closing a position, lines 72-75 / 99-102 / 124-127:
Long pays (exit - entry) * lot, Short pays (entry - exit) * lot. -/
def pnlOf (d : Dir) (entry exitP lot : ℚ) : ℚ :=
  if d = Dir.Long then (exitP - entry) * lot else (entry - exitP) * lot

/-- The `if position:` close-and-record block shared by the two entry
branches (lines 70-86 and 97-113): close any open position at the current
close with reason 'New Signal'; returns the updated state, the trade_made
flag and the pnl realised. -/
def closeAll (p : Params) (st : EngineState) (cc : ℚ) (ts : ℕ) :
    EngineState × Bool × ℚ :=
  if st.position = some Dir.Long then
    ({ st with
        capital := st.capital + (cc - st.entry_price) * p.lot_size,
        trades := st.trades ++
          [{ entry := st.entry_price, exit_price := cc, side := Dir.Long,
             pnl := (cc - st.entry_price) * p.lot_size, date := ts,
             reason := Reason.NewSignal, size := p.lot_size }] },
      true, (cc - st.entry_price) * p.lot_size)
  else if st.position = some Dir.Short then
    ({ st with
        capital := st.capital + (st.entry_price - cc) * p.lot_size,
        trades := st.trades ++
          [{ entry := st.entry_price, exit_price := cc, side := Dir.Short,
             pnl := (st.entry_price - cc) * p.lot_size, date := ts,
             reason := Reason.NewSignal, size := p.lot_size }] },
      true, (st.entry_price - cc) * p.lot_size)
  else (st, false, 0)

/-- Long entry condition, line 67: previous EMA short at most previous EMA
long, current EMA short above current EMA long, higher-timeframe trend
Bullish. -/
abbrev long_signal (higher : List HCandle) (ts : ℕ) (pes pel ces cel : ℚ) : Prop :=
  pes ≤ pel ∧ ces > cel ∧ determine_trend higher ts = Trend.Bullish

/-- Short entry condition, line 94: previous EMA short at least previous EMA
long, current EMA short below current EMA long, higher-timeframe trend
Bearish. -/
abbrev short_signal (higher : List HCandle) (ts : ℕ) (pes pel ces cel : ℚ) : Prop :=
  pes ≥ pel ∧ ces < cel ∧ determine_trend higher ts = Trend.Bearish

/-- The if/elif decision chain of the loop body, lines 67-177, on the seven
converted scalars of the current and previous rows.  Returns the state after
the branch together with the trade_made flag and the pnl of the bar. -/
def decideBranch (p : Params) (higher : List HCandle) (st : EngineState)
    (ts : ℕ) (ch cl cc ces cel pes pel : ℚ) : EngineState × Bool × ℚ :=
  if long_signal higher ts pes pel ces cel then
    let st1 := { st with signalLong := st.signalLong + 1 }
    let r := closeAll p st1 cc ts
    ({ r.1 with
        position := some Dir.Long,
        entry_price := cc,
        stop_loss := cc - cc * p.risk_percent / 100,
        take_profit := cc + (cc - (cc - cc * p.risk_percent / 100)) * p.risk_reward },
      r.2.1, r.2.2)
  else if short_signal higher ts pes pel ces cel then
    let st1 := { st with signalShort := st.signalShort + 1 }
    let r := closeAll p st1 cc ts
    ({ r.1 with
        position := some Dir.Short,
        entry_price := cc,
        stop_loss := cc + cc * p.risk_percent / 100,
        take_profit := cc - (cc + cc * p.risk_percent / 100 - cc) * p.risk_reward },
      r.2.1, r.2.2)
  else if (st.position = some Dir.Long ∧ determine_trend higher ts = Trend.Bearish) ∨
          (st.position = some Dir.Short ∧ determine_trend higher ts = Trend.Bullish) then
    if st.position = some Dir.Long then
      ({ st with
          capital := st.capital + (cc - st.entry_price) * p.lot_size,
          trades := st.trades ++
            [{ entry := st.entry_price, exit_price := cc, side := Dir.Long,
               pnl := (cc - st.entry_price) * p.lot_size, date := ts,
               reason := Reason.TrendChange, size := p.lot_size }],
          position := none },
        true, (cc - st.entry_price) * p.lot_size)
    else if st.position = some Dir.Short then
      ({ st with
          capital := st.capital + (st.entry_price - cc) * p.lot_size,
          trades := st.trades ++
            [{ entry := st.entry_price, exit_price := cc, side := Dir.Short,
               pnl := (st.entry_price - cc) * p.lot_size, date := ts,
               reason := Reason.TrendChange, size := p.lot_size }],
          position := none },
        true, (st.entry_price - cc) * p.lot_size)
    else (st, false, 0)
  else if st.position = some Dir.Long then
    if cl ≤ st.stop_loss ∨ ch ≥ st.take_profit then
      ({ st with
          capital := st.capital +
            ((if cl ≤ st.stop_loss then st.stop_loss else st.take_profit) - st.entry_price) * p.lot_size,
          trades := st.trades ++
            [{ entry := st.entry_price,
               exit_price := if cl ≤ st.stop_loss then st.stop_loss else st.take_profit,
               side := Dir.Long,
               pnl := ((if cl ≤ st.stop_loss then st.stop_loss else st.take_profit) - st.entry_price) * p.lot_size,
               date := ts,
               reason := if cl ≤ st.stop_loss then Reason.StopLoss else Reason.TakeProfit,
               size := p.lot_size }],
          position := none },
        true, ((if cl ≤ st.stop_loss then st.stop_loss else st.take_profit) - st.entry_price) * p.lot_size)
    else (st, false, 0)
  else if st.position = some Dir.Short then
    if ch ≥ st.stop_loss ∨ cl ≤ st.take_profit then
      ({ st with
          capital := st.capital +
            (st.entry_price - (if ch ≥ st.stop_loss then st.stop_loss else st.take_profit)) * p.lot_size,
          trades := st.trades ++
            [{ entry := st.entry_price,
               exit_price := if ch ≥ st.stop_loss then st.stop_loss else st.take_profit,
               side := Dir.Short,
               pnl := (st.entry_price - (if ch ≥ st.stop_loss then st.stop_loss else st.take_profit)) * p.lot_size,
               date := ts,
               reason := if ch ≥ st.stop_loss then Reason.StopLoss else Reason.TakeProfit,
               size := p.lot_size }],
          position := none },
        true, (st.entry_price - (if ch ≥ st.stop_loss then st.stop_loss else st.take_profit)) * p.lot_size)
    else (st, false, 0)
  else (st, false, 0)

/-- Point update of the returns table: returns_df.at[ts, 'return'] = v. -/
def updateAt (l : List (ℕ × ℚ)) (k : ℕ) (v : ℚ) : List (ℕ × ℚ) :=
  l.map (fun e => if e.1 = k then (k, v) else e)

/-- Lines 179-186: append the equity point for the bar (capital and a
position size of lot_size when a position is open, else 0), then, when a
trade was made, write the per-bar return pnl / (capital - pnl), with 0 when
that denominator is 0. -/
def recordBar (p : Params) (ts : ℕ) (st : EngineState) (tm : Bool) (pnl : ℚ) :
    EngineState :=
  { st with
    equity := st.equity ++
      [{ ts := ts, portfolio_value := st.capital,
         position_size := if st.position.isSome then p.lot_size else 0 }],
    returns := if tm then
        updateAt st.returns ts
          (if st.capital - pnl ≠ 0 then pnl / (st.capital - pnl) else 0)
      else st.returns }

/-- The try block, lines 47-58: convert the current row's high, low, close,
EMA_Short, EMA_Long and the previous row's EMA_Short, EMA_Long; none when
any single conversion fails. -/
def getScalars (prev cur : Bar) : Option (ℚ × ℚ × ℚ × ℚ × ℚ × ℚ × ℚ) :=
  match cur.high, cur.low, cur.close, cur.emaShort, cur.emaLong,
        prev.emaShort, prev.emaLong with
  | some ch, some cl, some cc, some ces, some cel, some pes, some pel =>
      some (ch, cl, cc, ces, cel, pes, pel)
  | _, _, _, _, _, _, _ => none

/-- One iteration of the loop of backtest_strategy for the pair
(previous row, current row): on conversion failure the `continue` leaves the
state untouched, otherwise the decision chain runs and the bar is recorded. -/
def processBar (p : Params) (higher : List HCandle) (st : EngineState)
    (prev cur : Bar) : EngineState :=
  match getScalars prev cur with
  | none => st
  | some (ch, cl, cc, ces, cel, pes, pel) =>
      recordBar p cur.ts (decideBranch p higher st cur.ts ch cl cc ces cel pes pel).1
        (decideBranch p higher st cur.ts ch cl cc ces cel pes pel).2.1
        (decideBranch p higher st cur.ts ch cl cc ces cel pes pel).2.2

/-- The (previous row, current row) pairs visited by
`for i in range(1, len(lower_tf_data))`. -/
def stepsOf (lower : List Bar) : List (Bar × Bar) :=
  lower.zip lower.tail

/-- State before the loop: empty ledger, no position, capital at
initial_capital, the seed equity point at the first lower timestamp, both
signal counters zero, and the returns table initialised to 0.0 at every
lower-timeframe timestamp. -/
def initState (lower : List Bar) (b0 : Bar) (cap : ℚ) : EngineState :=
  { trades := []
    position := none
    entry_price := 0
    stop_loss := 0
    take_profit := 0
    capital := cap
    equity := [{ ts := b0.ts, portfolio_value := cap, position_size := 0 }]
    signalLong := 0
    signalShort := 0
    returns := lower.map (fun b => (b.ts, 0)) }

/-- Full simulation state after the loop of backtest_strategy; none when
either input series is empty (the early return of lines 19-21). -/
def runState (lower : List Bar) (higher : List HCandle) (cap : ℚ)
    (p : Params) : Option EngineState :=
  match lower with
  | [] => none
  | b0 :: _ =>
    if higher.isEmpty then none
    else some ((stepsOf lower).foldl
      (fun st pc => processBar p higher st pc.1 pc.2) (initState lower b0 cap))

/-- Number of loop iterations that pass the conversion try block. -/
def processedCount (lower : List Bar) : ℕ :=
  (stepsOf lower).countP (fun pc => (getScalars pc.1 pc.2).isSome)

/-- The three tables returned by backtest_strategy, with the signal-count
side channel attached to the equity curve carried as an explicit pair. -/
structure BacktestOutput where
  trades : List Trade
  equity : List EquityPoint
  signal_counts : ℕ × ℕ
  returns : List (ℕ × ℚ)
deriving DecidableEq, Repr, Inhabited

/-- backtest_strategy of backtesting.py: empty outputs when either input
series is empty, else the tables of the final loop state. -/
def backtest_strategy (lower : List Bar) (higher : List HCandle)
    (initial_capital lot_size risk_percent risk_reward : ℚ) : BacktestOutput :=
  match runState lower higher initial_capital
      { lot_size := lot_size, risk_percent := risk_percent, risk_reward := risk_reward } with
  | none => { trades := [], equity := [], signal_counts := (0, 0), returns := [] }
  | some st =>
    { trades := st.trades, equity := st.equity,
      signal_counts := (st.signalLong, st.signalShort), returns := st.returns }

/-- Realised PnL total of a trade ledger. -/
def sumPnl (l : List Trade) : ℚ :=
  (l.map Trade.pnl).sum

/-- Loop invariant of backtest_strategy relating the running state to the
initial capital and the input series: capital is conserved against the
ledger, the last equity point mirrors capital and the open-position size,
the first equity point is the seed, and the returns table keeps one row per
lower bar with nonzero values only at dates of recorded trades. -/
def EngineInv (lower : List Bar) (cap : ℚ) (p : Params) (st : EngineState) : Prop :=
  st.capital = cap + sumPnl st.trades ∧
  Option.map EquityPoint.portfolio_value st.equity.getLast? = some st.capital ∧
  Option.map EquityPoint.position_size st.equity.getLast? =
    some (if st.position.isSome then p.lot_size else 0) ∧
  st.equity.head? =
    some { ts := (lower.headD default).ts, portfolio_value := cap, position_size := 0 } ∧
  st.returns.map Prod.fst = lower.map Bar.ts ∧
  (∀ e ∈ st.returns, e.2 ≠ 0 → ∃ tr ∈ st.trades, tr.date = e.1)

/-- Shorthand for a lower-timeframe bar all of whose fields convert. -/
def mkNumBar (t : ℕ) (h l c es el : ℚ) : Bar :=
  { ts := t, high := some h, low := some l, close := some c,
    emaShort := some es, emaLong := some el }

/-- A higher series that is Bullish at every queried timestamp. -/
def hcBull : List HCandle := [{ ts := 0, emaShort := 2, emaLong := 1 }]

/-- A higher series that is Bearish at every queried timestamp. -/
def hcBear : List HCandle := [{ ts := 0, emaShort := 1, emaLong := 2 }]

/-- A higher series Bullish up to timestamp 9 and Bearish from timestamp 10. -/
def hcShift : List HCandle :=
  [{ ts := 0, emaShort := 2, emaLong := 1 }, { ts := 10, emaShort := 1, emaLong := 2 }]

/-- Concrete parameters: lot 1, risk 1 percent, risk-reward 2. -/
def pUnit : Params := { lot_size := 1, risk_percent := 1, risk_reward := 2 }

/-- Four-bar series on which a long signal fires at bar 1 (entry 100,
stop 99, take 102), nothing touches at bar 2, and a second long signal
fires at bar 3 while the Long position is still open. -/
def c4Lower : List Bar :=
  [mkNumBar 1 10 10 10 1 2, mkNumBar 2 100 100 100 3 2,
   mkNumBar 3 101 100 100 1 2, mkNumBar 4 100 100 105 3 2]

/-- Final state of the c4Lower / hcBull run. -/
def c4St : EngineState := (runState c4Lower hcBull 500 pUnit).getD default

/-- Three-bar series on which the long entry at bar 1 (close 100, stop 99,
take 102) is followed by a bar whose low touches the stop while the
higher-timeframe trend has turned Bearish and a short EMA crossover fires. -/
def c1Lower : List Bar :=
  [mkNumBar 1 10 10 10 1 2, mkNumBar 2 100 100 100 3 2,
   mkNumBar 10 101 98 97 1 2]

/-- Three-bar series whose middle bar has a non-numeric EMA_Short while the
final bar is fully numeric. -/
def c7Lower : List Bar :=
  [mkNumBar 1 10 10 10 1 2,
   { ts := 2, high := some 10, low := some 10, close := some 10,
     emaShort := none, emaLong := some 2 },
   mkNumBar 3 10 10 10 1 2]

/-- Final state of the c7Lower / hcBull run. -/
def c7St : EngineState := (runState c7Lower hcBull 100 pUnit).getD default

/-- An engine state holding a Long position entered at 100 with stop 99 and
take-profit 102, used to exercise single steps of the chain. -/
def stLong : EngineState :=
  { trades := [], position := some Dir.Long, entry_price := 100,
    stop_loss := 99, take_profit := 102, capital := 500,
    equity := [{ ts := 1, portfolio_value := 500, position_size := 1 }],
    signalLong := 1, signalShort := 0, returns := [(1, 0), (2, 0)] }

/-- An engine state holding a Short position entered at 100 with stop 101
and take-profit 98. -/
def stShort : EngineState :=
  { trades := [], position := some Dir.Short, entry_price := 100,
    stop_loss := 101, take_profit := 98, capital := 500,
    equity := [{ ts := 1, portfolio_value := 500, position_size := 1 }],
    signalLong := 0, signalShort := 1, returns := [(1, 0), (2, 0)] }

/-!  Constructor-disequality rewriting lemmas, used to evaluate the engine
on concrete inputs. -/

theorem trend_bullish_ne_bearish : (Trend.Bullish = Trend.Bearish) = False := by simp

theorem trend_bullish_ne_neutral : (Trend.Bullish = Trend.Neutral) = False := by simp

theorem trend_bearish_ne_bullish : (Trend.Bearish = Trend.Bullish) = False := by simp

theorem trend_bearish_ne_neutral : (Trend.Bearish = Trend.Neutral) = False := by simp

theorem trend_neutral_ne_bullish : (Trend.Neutral = Trend.Bullish) = False := by simp

theorem trend_neutral_ne_bearish : (Trend.Neutral = Trend.Bearish) = False := by simp

theorem dir_long_ne_short : (Dir.Long = Dir.Short) = False := by simp

theorem dir_short_ne_long : (Dir.Short = Dir.Long) = False := by simp

theorem opt_none_ne_some (d : Dir) : ((none : Option Dir) = some d) = False := by simp

theorem opt_some_ne_none (d : Dir) : ((some d : Option Dir) = none) = False := by simp

theorem opt_some_inj (a b : Dir) : ((some a : Option Dir) = some b) = (a = b) := by simp

/-!  Flat characterisations of the decision chain, one per reachable
branch/position combination. -/

theorem decideBranch_longEntry_fromNone (p : Params) (higher : List HCandle)
    (st : EngineState) (ts : ℕ) (ch cl cc ces cel pes pel : ℚ)
    (hg : long_signal higher ts pes pel ces cel) (hpos : st.position = none) :
    decideBranch p higher st ts ch cl cc ces cel pes pel =
      ({ st with
          signalLong := st.signalLong + 1,
          position := some Dir.Long,
          entry_price := cc,
          stop_loss := cc - cc * p.risk_percent / 100,
          take_profit := cc + (cc - (cc - cc * p.risk_percent / 100)) * p.risk_reward },
        false, 0) := by
  obtain ⟨h1, h2, h3⟩ := hg
  unfold decideBranch closeAll
  simp [h1, h2, h3, hpos]

theorem decideBranch_longEntry_fromLong (p : Params) (higher : List HCandle)
    (st : EngineState) (ts : ℕ) (ch cl cc ces cel pes pel : ℚ)
    (hg : long_signal higher ts pes pel ces cel) (hpos : st.position = some Dir.Long) :
    decideBranch p higher st ts ch cl cc ces cel pes pel =
      ({ st with
          signalLong := st.signalLong + 1,
          capital := st.capital + (cc - st.entry_price) * p.lot_size,
          trades := st.trades ++
            [{ entry := st.entry_price, exit_price := cc, side := Dir.Long,
               pnl := (cc - st.entry_price) * p.lot_size, date := ts,
               reason := Reason.NewSignal, size := p.lot_size }],
          position := some Dir.Long,
          entry_price := cc,
          stop_loss := cc - cc * p.risk_percent / 100,
          take_profit := cc + (cc - (cc - cc * p.risk_percent / 100)) * p.risk_reward },
        true, (cc - st.entry_price) * p.lot_size) := by
  obtain ⟨h1, h2, h3⟩ := hg
  unfold decideBranch closeAll
  simp [h1, h2, h3, hpos]

theorem decideBranch_longEntry_fromShort (p : Params) (higher : List HCandle)
    (st : EngineState) (ts : ℕ) (ch cl cc ces cel pes pel : ℚ)
    (hg : long_signal higher ts pes pel ces cel) (hpos : st.position = some Dir.Short) :
    decideBranch p higher st ts ch cl cc ces cel pes pel =
      ({ st with
          signalLong := st.signalLong + 1,
          capital := st.capital + (st.entry_price - cc) * p.lot_size,
          trades := st.trades ++
            [{ entry := st.entry_price, exit_price := cc, side := Dir.Short,
               pnl := (st.entry_price - cc) * p.lot_size, date := ts,
               reason := Reason.NewSignal, size := p.lot_size }],
          position := some Dir.Long,
          entry_price := cc,
          stop_loss := cc - cc * p.risk_percent / 100,
          take_profit := cc + (cc - (cc - cc * p.risk_percent / 100)) * p.risk_reward },
        true, (st.entry_price - cc) * p.lot_size) := by
  obtain ⟨h1, h2, h3⟩ := hg
  unfold decideBranch closeAll
  simp [h1, h2, h3, hpos]

theorem decideBranch_shortEntry_fromNone (p : Params) (higher : List HCandle)
    (st : EngineState) (ts : ℕ) (ch cl cc ces cel pes pel : ℚ)
    (hn : ¬ long_signal higher ts pes pel ces cel)
    (hg : short_signal higher ts pes pel ces cel) (hpos : st.position = none) :
    decideBranch p higher st ts ch cl cc ces cel pes pel =
      ({ st with
          signalShort := st.signalShort + 1,
          position := some Dir.Short,
          entry_price := cc,
          stop_loss := cc + cc * p.risk_percent / 100,
          take_profit := cc - (cc + cc * p.risk_percent / 100 - cc) * p.risk_reward },
        false, 0) := by
  obtain ⟨h1, h2, h3⟩ := hg
  unfold decideBranch closeAll
  simp [hn, h1, h2, h3, hpos]

theorem decideBranch_shortEntry_fromLong (p : Params) (higher : List HCandle)
    (st : EngineState) (ts : ℕ) (ch cl cc ces cel pes pel : ℚ)
    (hn : ¬ long_signal higher ts pes pel ces cel)
    (hg : short_signal higher ts pes pel ces cel) (hpos : st.position = some Dir.Long) :
    decideBranch p higher st ts ch cl cc ces cel pes pel =
      ({ st with
          signalShort := st.signalShort + 1,
          capital := st.capital + (cc - st.entry_price) * p.lot_size,
          trades := st.trades ++
            [{ entry := st.entry_price, exit_price := cc, side := Dir.Long,
               pnl := (cc - st.entry_price) * p.lot_size, date := ts,
               reason := Reason.NewSignal, size := p.lot_size }],
          position := some Dir.Short,
          entry_price := cc,
          stop_loss := cc + cc * p.risk_percent / 100,
          take_profit := cc - (cc + cc * p.risk_percent / 100 - cc) * p.risk_reward },
        true, (cc - st.entry_price) * p.lot_size) := by
  obtain ⟨h1, h2, h3⟩ := hg
  unfold decideBranch closeAll
  simp [hn, h1, h2, h3, hpos]

theorem decideBranch_shortEntry_fromShort (p : Params) (higher : List HCandle)
    (st : EngineState) (ts : ℕ) (ch cl cc ces cel pes pel : ℚ)
    (hn : ¬ long_signal higher ts pes pel ces cel)
    (hg : short_signal higher ts pes pel ces cel) (hpos : st.position = some Dir.Short) :
    decideBranch p higher st ts ch cl cc ces cel pes pel =
      ({ st with
          signalShort := st.signalShort + 1,
          capital := st.capital + (st.entry_price - cc) * p.lot_size,
          trades := st.trades ++
            [{ entry := st.entry_price, exit_price := cc, side := Dir.Short,
               pnl := (st.entry_price - cc) * p.lot_size, date := ts,
               reason := Reason.NewSignal, size := p.lot_size }],
          position := some Dir.Short,
          entry_price := cc,
          stop_loss := cc + cc * p.risk_percent / 100,
          take_profit := cc - (cc + cc * p.risk_percent / 100 - cc) * p.risk_reward },
        true, (st.entry_price - cc) * p.lot_size) := by
  obtain ⟨h1, h2, h3⟩ := hg
  unfold decideBranch closeAll
  simp [hn, h1, h2, h3, hpos]

theorem decideBranch_trendExit_long (p : Params) (higher : List HCandle)
    (st : EngineState) (ts : ℕ) (ch cl cc ces cel pes pel : ℚ)
    (hn1 : ¬ long_signal higher ts pes pel ces cel)
    (hn2 : ¬ short_signal higher ts pes pel ces cel)
    (hpos : st.position = some Dir.Long)
    (ht : determine_trend higher ts = Trend.Bearish) :
    decideBranch p higher st ts ch cl cc ces cel pes pel =
      ({ st with
          capital := st.capital + (cc - st.entry_price) * p.lot_size,
          trades := st.trades ++
            [{ entry := st.entry_price, exit_price := cc, side := Dir.Long,
               pnl := (cc - st.entry_price) * p.lot_size, date := ts,
               reason := Reason.TrendChange, size := p.lot_size }],
          position := none },
        true, (cc - st.entry_price) * p.lot_size) := by
  unfold decideBranch
  simp [hn1, hn2, hpos, ht]

theorem decideBranch_trendExit_short (p : Params) (higher : List HCandle)
    (st : EngineState) (ts : ℕ) (ch cl cc ces cel pes pel : ℚ)
    (hn1 : ¬ long_signal higher ts pes pel ces cel)
    (hn2 : ¬ short_signal higher ts pes pel ces cel)
    (hpos : st.position = some Dir.Short)
    (ht : determine_trend higher ts = Trend.Bullish) :
    decideBranch p higher st ts ch cl cc ces cel pes pel =
      ({ st with
          capital := st.capital + (st.entry_price - cc) * p.lot_size,
          trades := st.trades ++
            [{ entry := st.entry_price, exit_price := cc, side := Dir.Short,
               pnl := (st.entry_price - cc) * p.lot_size, date := ts,
               reason := Reason.TrendChange, size := p.lot_size }],
          position := none },
        true, (st.entry_price - cc) * p.lot_size) := by
  unfold decideBranch
  simp [hn1, hn2, hpos, ht]

theorem decideBranch_longSLTP_hit (p : Params) (higher : List HCandle)
    (st : EngineState) (ts : ℕ) (ch cl cc ces cel pes pel : ℚ)
    (hn1 : ¬ long_signal higher ts pes pel ces cel)
    (hn2 : ¬ short_signal higher ts pes pel ces cel)
    (hpos : st.position = some Dir.Long)
    (ht : determine_trend higher ts ≠ Trend.Bearish)
    (htouch : cl ≤ st.stop_loss ∨ ch ≥ st.take_profit) :
    decideBranch p higher st ts ch cl cc ces cel pes pel =
      ({ st with
          capital := st.capital +
            ((if cl ≤ st.stop_loss then st.stop_loss else st.take_profit) - st.entry_price) * p.lot_size,
          trades := st.trades ++
            [{ entry := st.entry_price,
               exit_price := if cl ≤ st.stop_loss then st.stop_loss else st.take_profit,
               side := Dir.Long,
               pnl := ((if cl ≤ st.stop_loss then st.stop_loss else st.take_profit) - st.entry_price) * p.lot_size,
               date := ts,
               reason := if cl ≤ st.stop_loss then Reason.StopLoss else Reason.TakeProfit,
               size := p.lot_size }],
          position := none },
        true,
        ((if cl ≤ st.stop_loss then st.stop_loss else st.take_profit) - st.entry_price) * p.lot_size) := by
  unfold decideBranch
  simp [hn1, hn2, hpos, ht, htouch]

theorem decideBranch_longSLTP_miss (p : Params) (higher : List HCandle)
    (st : EngineState) (ts : ℕ) (ch cl cc ces cel pes pel : ℚ)
    (hn1 : ¬ long_signal higher ts pes pel ces cel)
    (hn2 : ¬ short_signal higher ts pes pel ces cel)
    (hpos : st.position = some Dir.Long)
    (ht : determine_trend higher ts ≠ Trend.Bearish)
    (htouch : ¬ (cl ≤ st.stop_loss ∨ ch ≥ st.take_profit)) :
    decideBranch p higher st ts ch cl cc ces cel pes pel = (st, false, 0) := by
  unfold decideBranch
  simp [hn1, hn2, hpos, ht, htouch]

theorem decideBranch_shortSLTP_hit (p : Params) (higher : List HCandle)
    (st : EngineState) (ts : ℕ) (ch cl cc ces cel pes pel : ℚ)
    (hn1 : ¬ long_signal higher ts pes pel ces cel)
    (hn2 : ¬ short_signal higher ts pes pel ces cel)
    (hpos : st.position = some Dir.Short)
    (ht : determine_trend higher ts ≠ Trend.Bullish)
    (htouch : ch ≥ st.stop_loss ∨ cl ≤ st.take_profit) :
    decideBranch p higher st ts ch cl cc ces cel pes pel =
      ({ st with
          capital := st.capital +
            (st.entry_price - (if ch ≥ st.stop_loss then st.stop_loss else st.take_profit)) * p.lot_size,
          trades := st.trades ++
            [{ entry := st.entry_price,
               exit_price := if ch ≥ st.stop_loss then st.stop_loss else st.take_profit,
               side := Dir.Short,
               pnl := (st.entry_price - (if ch ≥ st.stop_loss then st.stop_loss else st.take_profit)) * p.lot_size,
               date := ts,
               reason := if ch ≥ st.stop_loss then Reason.StopLoss else Reason.TakeProfit,
               size := p.lot_size }],
          position := none },
        true,
        (st.entry_price - (if ch ≥ st.stop_loss then st.stop_loss else st.take_profit)) * p.lot_size) := by
  unfold decideBranch
  simp [hn1, hn2, hpos, ht, htouch]

theorem decideBranch_shortSLTP_miss (p : Params) (higher : List HCandle)
    (st : EngineState) (ts : ℕ) (ch cl cc ces cel pes pel : ℚ)
    (hn1 : ¬ long_signal higher ts pes pel ces cel)
    (hn2 : ¬ short_signal higher ts pes pel ces cel)
    (hpos : st.position = some Dir.Short)
    (ht : determine_trend higher ts ≠ Trend.Bullish)
    (htouch : ¬ (ch ≥ st.stop_loss ∨ cl ≤ st.take_profit)) :
    decideBranch p higher st ts ch cl cc ces cel pes pel = (st, false, 0) := by
  unfold decideBranch
  simp [hn1, hn2, hpos, ht, htouch]

theorem decideBranch_noPosition (p : Params) (higher : List HCandle)
    (st : EngineState) (ts : ℕ) (ch cl cc ces cel pes pel : ℚ)
    (hn1 : ¬ long_signal higher ts pes pel ces cel)
    (hn2 : ¬ short_signal higher ts pes pel ces cel)
    (hpos : st.position = none) :
    decideBranch p higher st ts ch cl cc ces cel pes pel = (st, false, 0) := by
  unfold decideBranch
  simp [hn1, hn2, hpos]

/-!  Projections of recordBar and the two cases of processBar. -/

theorem recordBar_trades (p : Params) (ts : ℕ) (st : EngineState) (tm : Bool) (pnl : ℚ) :
    (recordBar p ts st tm pnl).trades = st.trades := rfl

theorem recordBar_position (p : Params) (ts : ℕ) (st : EngineState) (tm : Bool) (pnl : ℚ) :
    (recordBar p ts st tm pnl).position = st.position := rfl

theorem recordBar_capital (p : Params) (ts : ℕ) (st : EngineState) (tm : Bool) (pnl : ℚ) :
    (recordBar p ts st tm pnl).capital = st.capital := rfl

theorem recordBar_entry_price (p : Params) (ts : ℕ) (st : EngineState) (tm : Bool) (pnl : ℚ) :
    (recordBar p ts st tm pnl).entry_price = st.entry_price := rfl

theorem recordBar_stop_loss (p : Params) (ts : ℕ) (st : EngineState) (tm : Bool) (pnl : ℚ) :
    (recordBar p ts st tm pnl).stop_loss = st.stop_loss := rfl

theorem recordBar_take_profit (p : Params) (ts : ℕ) (st : EngineState) (tm : Bool) (pnl : ℚ) :
    (recordBar p ts st tm pnl).take_profit = st.take_profit := rfl

theorem recordBar_signalLong (p : Params) (ts : ℕ) (st : EngineState) (tm : Bool) (pnl : ℚ) :
    (recordBar p ts st tm pnl).signalLong = st.signalLong := rfl

theorem recordBar_signalShort (p : Params) (ts : ℕ) (st : EngineState) (tm : Bool) (pnl : ℚ) :
    (recordBar p ts st tm pnl).signalShort = st.signalShort := rfl

theorem recordBar_equity (p : Params) (ts : ℕ) (st : EngineState) (tm : Bool) (pnl : ℚ) :
    (recordBar p ts st tm pnl).equity = st.equity ++
      [{ ts := ts, portfolio_value := st.capital,
         position_size := if st.position.isSome then p.lot_size else 0 }] := rfl

theorem recordBar_returns (p : Params) (ts : ℕ) (st : EngineState) (tm : Bool) (pnl : ℚ) :
    (recordBar p ts st tm pnl).returns =
      if tm then
        updateAt st.returns ts (if st.capital - pnl ≠ 0 then pnl / (st.capital - pnl) else 0)
      else st.returns := rfl

theorem processBar_skip (p : Params) (higher : List HCandle) (st : EngineState)
    (prev cur : Bar) (h : getScalars prev cur = none) :
    processBar p higher st prev cur = st := by
  unfold processBar
  rw [h]

theorem processBar_eq (p : Params) (higher : List HCandle) (st : EngineState)
    (prev cur : Bar) (ch cl cc ces cel pes pel : ℚ)
    (h : getScalars prev cur = some (ch, cl, cc, ces, cel, pes, pel)) :
    processBar p higher st prev cur =
      recordBar p cur.ts (decideBranch p higher st cur.ts ch cl cc ces cel pes pel).1
        (decideBranch p higher st cur.ts ch cl cc ces cel pes pel).2.1
        (decideBranch p higher st cur.ts ch cl cc ces cel pes pel).2.2 := by
  unfold processBar
  rw [h]

/-- Shape of one pass through the decision chain: equity and returns are
untouched by the chain itself; when trade_made is true exactly one trade is
appended, dated at the bar, and the capital moves by exactly its pnl; when
trade_made is false, ledger and capital are unchanged and the pnl is 0. -/
theorem decideBranch_shape (p : Params) (higher : List HCandle) (st : EngineState)
    (ts : ℕ) (ch cl cc ces cel pes pel : ℚ) :
    ((decideBranch p higher st ts ch cl cc ces cel pes pel).1.equity = st.equity) ∧
    ((decideBranch p higher st ts ch cl cc ces cel pes pel).1.returns = st.returns) ∧
    ((decideBranch p higher st ts ch cl cc ces cel pes pel).2.1 = true →
      ∃ t : Trade,
        (decideBranch p higher st ts ch cl cc ces cel pes pel).1.trades = st.trades ++ [t] ∧
        (decideBranch p higher st ts ch cl cc ces cel pes pel).1.capital = st.capital + t.pnl ∧
        t.pnl = (decideBranch p higher st ts ch cl cc ces cel pes pel).2.2 ∧
        t.date = ts ∧ t.size = p.lot_size) ∧
    ((decideBranch p higher st ts ch cl cc ces cel pes pel).2.1 = false →
      (decideBranch p higher st ts ch cl cc ces cel pes pel).1.trades = st.trades ∧
      (decideBranch p higher st ts ch cl cc ces cel pes pel).1.capital = st.capital ∧
      (decideBranch p higher st ts ch cl cc ces cel pes pel).2.2 = 0) := by
  by_cases h1 : long_signal higher ts pes pel ces cel
  · rcases hpos : st.position with _ | d
    · rw [decideBranch_longEntry_fromNone p higher st ts ch cl cc ces cel pes pel h1 hpos]
      exact ⟨rfl, rfl, by simp, fun _ => ⟨rfl, rfl, rfl⟩⟩
    · cases d
      · rw [decideBranch_longEntry_fromLong p higher st ts ch cl cc ces cel pes pel h1 hpos]
        exact ⟨rfl, rfl, fun _ => ⟨_, rfl, rfl, rfl, rfl, rfl⟩, by simp⟩
      · rw [decideBranch_longEntry_fromShort p higher st ts ch cl cc ces cel pes pel h1 hpos]
        exact ⟨rfl, rfl, fun _ => ⟨_, rfl, rfl, rfl, rfl, rfl⟩, by simp⟩
  · by_cases h2 : short_signal higher ts pes pel ces cel
    · rcases hpos : st.position with _ | d
      · rw [decideBranch_shortEntry_fromNone p higher st ts ch cl cc ces cel pes pel h1 h2 hpos]
        exact ⟨rfl, rfl, by simp, fun _ => ⟨rfl, rfl, rfl⟩⟩
      · cases d
        · rw [decideBranch_shortEntry_fromLong p higher st ts ch cl cc ces cel pes pel h1 h2 hpos]
          exact ⟨rfl, rfl, fun _ => ⟨_, rfl, rfl, rfl, rfl, rfl⟩, by simp⟩
        · rw [decideBranch_shortEntry_fromShort p higher st ts ch cl cc ces cel pes pel h1 h2 hpos]
          exact ⟨rfl, rfl, fun _ => ⟨_, rfl, rfl, rfl, rfl, rfl⟩, by simp⟩
    · rcases hpos : st.position with _ | d
      · rw [decideBranch_noPosition p higher st ts ch cl cc ces cel pes pel h1 h2 hpos]
        exact ⟨rfl, rfl, by simp, fun _ => ⟨rfl, rfl, rfl⟩⟩
      · cases d
        · by_cases ht : determine_trend higher ts = Trend.Bearish
          · rw [decideBranch_trendExit_long p higher st ts ch cl cc ces cel pes pel h1 h2 hpos ht]
            exact ⟨rfl, rfl, fun _ => ⟨_, rfl, rfl, rfl, rfl, rfl⟩, by simp⟩
          · by_cases htouch : cl ≤ st.stop_loss ∨ ch ≥ st.take_profit
            · rw [decideBranch_longSLTP_hit p higher st ts ch cl cc ces cel pes pel h1 h2 hpos ht htouch]
              exact ⟨rfl, rfl, fun _ => ⟨_, rfl, rfl, rfl, rfl, rfl⟩, by simp⟩
            · rw [decideBranch_longSLTP_miss p higher st ts ch cl cc ces cel pes pel h1 h2 hpos ht htouch]
              exact ⟨rfl, rfl, by simp, fun _ => ⟨rfl, rfl, rfl⟩⟩
        · by_cases ht : determine_trend higher ts = Trend.Bullish
          · rw [decideBranch_trendExit_short p higher st ts ch cl cc ces cel pes pel h1 h2 hpos ht]
            exact ⟨rfl, rfl, fun _ => ⟨_, rfl, rfl, rfl, rfl, rfl⟩, by simp⟩
          · by_cases htouch : ch ≥ st.stop_loss ∨ cl ≤ st.take_profit
            · rw [decideBranch_shortSLTP_hit p higher st ts ch cl cc ces cel pes pel h1 h2 hpos ht htouch]
              exact ⟨rfl, rfl, fun _ => ⟨_, rfl, rfl, rfl, rfl, rfl⟩, by simp⟩
            · rw [decideBranch_shortSLTP_miss p higher st ts ch cl cc ces cel pes pel h1 h2 hpos ht htouch]
              exact ⟨rfl, rfl, by simp, fun _ => ⟨rfl, rfl, rfl⟩⟩

/-!  Small list utilities. -/

theorem head?_append_left {α : Type} {l : List α} (l' : List α) {a : α}
    (h : l.head? = some a) : (l ++ l').head? = some a := by
  cases l with
  | nil => simp at h
  | cons b t => simpa using h

theorem updateAt_keys (l : List (ℕ × ℚ)) (k : ℕ) (v : ℚ) :
    (updateAt l k v).map Prod.fst = l.map Prod.fst := by
  unfold updateAt
  induction l with
  | nil => rfl
  | cons e t ih =>
    simp only [List.map_cons, ih]
    by_cases h : e.1 = k
    · simp [h]
    · simp [h]

theorem updateAt_mem (l : List (ℕ × ℚ)) (k : ℕ) (v : ℚ) (e : ℕ × ℚ)
    (he : e ∈ updateAt l k v) : (e.1 = k ∧ e.2 = v) ∨ e ∈ l := by
  unfold updateAt at he
  rw [List.mem_map] at he
  obtain ⟨a, ha, hae⟩ := he
  by_cases h : a.1 = k
  · rw [if_pos h] at hae
    left
    rw [← hae]
    exact ⟨rfl, rfl⟩
  · rw [if_neg h] at hae
    right
    rw [← hae]
    exact ha

/-!  Per-step consequences of processBar, lifted from decideBranch_shape. -/

theorem processBar_equity_length (p : Params) (higher : List HCandle)
    (st : EngineState) (prev cur : Bar) :
    (processBar p higher st prev cur).equity.length =
      st.equity.length + (if (getScalars prev cur).isSome then 1 else 0) := by
  rcases h : getScalars prev cur with _ | ⟨ch, cl, cc, ces, cel, pes, pel⟩
  · rw [processBar_skip p higher st prev cur h]
    simp
  · rw [processBar_eq p higher st prev cur ch cl cc ces cel pes pel h]
    rw [recordBar_equity]
    have hs := (decideBranch_shape p higher st cur.ts ch cl cc ces cel pes pel).1
    rw [hs]
    simp

theorem processBar_trades_mono (p : Params) (higher : List HCandle)
    (st : EngineState) (prev cur : Bar) :
    (processBar p higher st prev cur).trades = st.trades ∨
      ∃ t : Trade, (processBar p higher st prev cur).trades = st.trades ++ [t] := by
  rcases h : getScalars prev cur with _ | ⟨ch, cl, cc, ces, cel, pes, pel⟩
  · rw [processBar_skip p higher st prev cur h]
    exact Or.inl rfl
  · rw [processBar_eq p higher st prev cur ch cl cc ces cel pes pel h, recordBar_trades]
    obtain ⟨-, -, htm, hfm⟩ := decideBranch_shape p higher st cur.ts ch cl cc ces cel pes pel
    rcases hb : (decideBranch p higher st cur.ts ch cl cc ces cel pes pel).2.1 with _ | _
    · exact Or.inl (hfm hb).1
    · obtain ⟨t, ht, -⟩ := htm hb
      exact Or.inr ⟨t, ht⟩

theorem sumPnl_append_single (l : List Trade) (t : Trade) :
    sumPnl (l ++ [t]) = sumPnl l + t.pnl := by
  simp [sumPnl]

/-- EngineInv is preserved by every loop iteration, whether the bar is
skipped or processed. -/
theorem engineInv_step (lower : List Bar) (cap : ℚ) (p : Params)
    (higher : List HCandle) (st : EngineState) (prev cur : Bar)
    (hinv : EngineInv lower cap p st) :
    EngineInv lower cap p (processBar p higher st prev cur) := by
  unfold EngineInv at hinv ⊢
  obtain ⟨hcap, hlastv, hlasts, hhead, hkeys, hret⟩ := hinv
  rcases h : getScalars prev cur with _ | ⟨ch, cl, cc, ces, cel, pes, pel⟩
  · rw [processBar_skip p higher st prev cur h]
    exact ⟨hcap, hlastv, hlasts, hhead, hkeys, hret⟩
  · rw [processBar_eq p higher st prev cur ch cl cc ces cel pes pel h]
    obtain ⟨heq, hrteq, htm, hfm⟩ :=
      decideBranch_shape p higher st cur.ts ch cl cc ces cel pes pel
    refine ⟨?_, ?_, ?_, ?_, ?_, ?_⟩
    · rw [recordBar_capital, recordBar_trades]
      rcases hb : (decideBranch p higher st cur.ts ch cl cc ces cel pes pel).2.1 with _ | _
      · obtain ⟨htr, hc, -⟩ := hfm hb
        rw [htr, hc, hcap]
      · obtain ⟨t, htr, hc, -, -, -⟩ := htm hb
        rw [htr, hc, hcap, sumPnl_append_single]
        ring
    · rw [recordBar_capital, recordBar_equity, List.getLast?_concat]
      rfl
    · rw [recordBar_position, recordBar_equity, List.getLast?_concat]
      rfl
    · rw [recordBar_equity, heq]
      exact head?_append_left _ hhead
    · rw [recordBar_returns, hrteq]
      rcases hb : (decideBranch p higher st cur.ts ch cl cc ces cel pes pel).2.1 with _ | _
      · simpa using hkeys
      · simpa [updateAt_keys] using hkeys
    · rw [recordBar_returns, recordBar_trades, hrteq]
      rcases hb : (decideBranch p higher st cur.ts ch cl cc ces cel pes pel).2.1 with _ | _
      · obtain ⟨htr, -, -⟩ := hfm hb
        rw [htr]
        simpa using hret
      · obtain ⟨t, htr, -, -, hdate, -⟩ := htm hb
        rw [htr]
        simp only [if_true]
        intro e he hne
        rcases updateAt_mem _ _ _ e he with ⟨hk, -⟩ | hmem
        · exact ⟨t, List.mem_append_right _ (List.mem_singleton.mpr rfl), by rw [hdate, hk]⟩
        · obtain ⟨tr, htrm, htrd⟩ := hret e hmem hne
          exact ⟨tr, List.mem_append_left _ htrm, htrd⟩

/-- EngineInv holds for the pre-loop state. -/
theorem engineInv_init (b0 : Bar) (rest : List Bar) (cap : ℚ) (p : Params) :
    EngineInv (b0 :: rest) cap p (initState (b0 :: rest) b0 cap) := by
  unfold EngineInv initState
  refine ⟨by simp [sumPnl], by simp, by simp, by simp, ?_, ?_⟩
  · simp [List.map_map, Function.comp]
  · intro e he hne
    simp only [List.mem_map] at he
    obtain ⟨b, -, rfl⟩ := he
    simp at hne

theorem foldl_engineInv (lower : List Bar) (cap : ℚ) (p : Params)
    (higher : List HCandle) :
    ∀ (l : List (Bar × Bar)) (st : EngineState), EngineInv lower cap p st →
      EngineInv lower cap p
        (l.foldl (fun st pc => processBar p higher st pc.1 pc.2) st) := by
  intro l
  induction l with
  | nil => exact fun st h => h
  | cons a t ih =>
    intro st h
    exact ih _ (engineInv_step lower cap p higher st a.1 a.2 h)

theorem runState_engineInv (lower : List Bar) (higher : List HCandle) (cap : ℚ)
    (p : Params) (st : EngineState) (h : runState lower higher cap p = some st) :
    EngineInv lower cap p st := by
  rcases lower with _ | ⟨b0, rest⟩
  · simp [runState] at h
  · simp only [runState] at h
    by_cases hh : higher.isEmpty
    · rw [if_pos hh] at h
      simp at h
    · rw [if_neg hh] at h
      obtain rfl := Option.some.inj h.symm
      exact foldl_engineInv (b0 :: rest) cap p higher (stepsOf (b0 :: rest))
        (initState (b0 :: rest) b0 cap) (engineInv_init b0 rest cap p)

theorem foldl_equity_length (p : Params) (higher : List HCandle) :
    ∀ (l : List (Bar × Bar)) (st : EngineState),
      (l.foldl (fun st pc => processBar p higher st pc.1 pc.2) st).equity.length =
        st.equity.length + l.countP (fun pc => (getScalars pc.1 pc.2).isSome) := by
  intro l
  induction l with
  | nil => intro st; simp
  | cons a t ih =>
    intro st
    rw [List.foldl_cons, ih, processBar_equity_length, List.countP_cons]
    by_cases hc : (getScalars a.1 a.2).isSome
    · simp only [hc, if_true]
      omega
    · simp only [Bool.not_eq_true] at hc
      simp [hc]

theorem runState_equity_length (lower : List Bar) (higher : List HCandle)
    (cap : ℚ) (p : Params) (st : EngineState)
    (h : runState lower higher cap p = some st) :
    st.equity.length = processedCount lower + 1 := by
  rcases lower with _ | ⟨b0, rest⟩
  · simp [runState] at h
  · simp only [runState] at h
    by_cases hh : higher.isEmpty
    · rw [if_pos hh] at h
      simp at h
    · rw [if_neg hh] at h
      obtain rfl := Option.some.inj h.symm
      rw [foldl_equity_length]
      unfold processedCount initState
      simp [Nat.add_comm]

theorem runState_isSome (lower : List Bar) (higher : List HCandle) (cap : ℚ)
    (p : Params) (hl : lower ≠ []) (hh : higher ≠ []) :
    (runState lower higher cap p).isSome = true := by
  rcases lower with _ | ⟨b0, rest⟩
  · exact absurd rfl hl
  · simp only [runState]
    rw [if_neg (by simpa [List.isEmpty_iff] using hh)]
    rfl

theorem backtest_strategy_eq (lower : List Bar) (higher : List HCandle)
    (cap lot rp rr : ℚ) (st : EngineState)
    (h : runState lower higher cap
      { lot_size := lot, risk_percent := rp, risk_reward := rr } = some st) :
    backtest_strategy lower higher cap lot rp rr =
      { trades := st.trades, equity := st.equity,
        signal_counts := (st.signalLong, st.signalShort), returns := st.returns } := by
  unfold backtest_strategy
  rw [h]

theorem getD_spec {α : Type} [Inhabited α] (o : Option α) (h : o.isSome = true) :
    o = some (o.getD default) := by
  rcases o with _ | x
  · simp at h
  · rfl

/-- C1 (amended): the five branches form a mutually exclusive first-match
chain in the order long entry, short entry, trend exit, Long stop/take,
Short stop/take, so at most one trade is appended per bar.  A Long position
whose higher-timeframe trend is Bearish, on a bar with no short entry
signal, is closed at the bar's close with reason TrendChange even when its
stop or take level was touched, the stop/take branch never being reached;
when a short entry signal fires on that bar, the Long is instead closed at
the close with reason NewSignal and replaced by a Short (still never
reaching the stop/take branch). -/
theorem C1_first_match_chain (p : Params) (higher : List HCandle) :
    (∀ (st : EngineState) (prev cur : Bar),
      (processBar p higher st prev cur).trades.length ≤ st.trades.length + 1) ∧
    (∀ (st : EngineState) (prev cur : Bar) (ch cl cc ces cel pes pel : ℚ),
      getScalars prev cur = some (ch, cl, cc, ces, cel, pes, pel) →
      st.position = some Dir.Long →
      determine_trend higher cur.ts = Trend.Bearish →
      ¬ short_signal higher cur.ts pes pel ces cel →
      (cl ≤ st.stop_loss ∨ ch ≥ st.take_profit) →
      (processBar p higher st prev cur).position = none ∧
      (processBar p higher st prev cur).trades = st.trades ++
        [{ entry := st.entry_price, exit_price := cc, side := Dir.Long,
           pnl := (cc - st.entry_price) * p.lot_size, date := cur.ts,
           reason := Reason.TrendChange, size := p.lot_size }]) ∧
    (∀ (st : EngineState) (prev cur : Bar) (ch cl cc ces cel pes pel : ℚ),
      getScalars prev cur = some (ch, cl, cc, ces, cel, pes, pel) →
      st.position = some Dir.Long →
      short_signal higher cur.ts pes pel ces cel →
      (cl ≤ st.stop_loss ∨ ch ≥ st.take_profit) →
      (processBar p higher st prev cur).position = some Dir.Short ∧
      (processBar p higher st prev cur).trades = st.trades ++
        [{ entry := st.entry_price, exit_price := cc, side := Dir.Long,
           pnl := (cc - st.entry_price) * p.lot_size, date := cur.ts,
           reason := Reason.NewSignal, size := p.lot_size }]) := by
  refine ⟨?_, ?_, ?_⟩
  · intro st prev cur
    rcases processBar_trades_mono p higher st prev cur with heq | ⟨t, ht⟩
    · rw [heq]
      exact Nat.le_succ _
    · rw [ht]
      simp
  · intro st prev cur ch cl cc ces cel pes pel hs hpos htr hns htouch
    have hnl : ¬ long_signal higher cur.ts pes pel ces cel := by
      intro hg
      have hb := hg.2.2
      rw [htr] at hb
      exact absurd hb (by simp)
    rw [processBar_eq p higher st prev cur ch cl cc ces cel pes pel hs,
      decideBranch_trendExit_long p higher st cur.ts ch cl cc ces cel pes pel hnl hns hpos htr]
    exact ⟨rfl, rfl⟩
  · intro st prev cur ch cl cc ces cel pes pel hs hpos hshort htouch
    have hnl : ¬ long_signal higher cur.ts pes pel ces cel := by
      intro hg
      have hb := hshort.2.2
      rw [hg.2.2] at hb
      exact absurd hb (by simp)
    rw [processBar_eq p higher st prev cur ch cl cc ces cel pes pel hs,
      decideBranch_shortEntry_fromLong p higher st cur.ts ch cl cc ces cel pes pel hnl hshort hpos]
    exact ⟨rfl, rfl⟩

/-- C1 counterexample: in the c1Lower / hcShift run the Long entered at bar
1 (stop 99) reaches bar timestamp 10 with a Bearish higher trend and its
stop touched (low 98 <= 99), yet it is closed with reason NewSignal (a
short crossover fires the same bar) and replaced by a Short — not closed
with reason TrendChange as the claim demands. -/
theorem C1_counterexample :
    determine_trend hcShift 10 = Trend.Bearish ∧
    (runState (c1Lower.take 2) hcShift 500 pUnit).map
        (fun st => (st.position, st.stop_loss)) = some (some Dir.Long, 99) ∧
    ((98 : ℚ) ≤ 99) ∧
    (runState c1Lower hcShift 500 pUnit).map
        (fun st => (st.trades.map Trade.reason, st.position)) =
      some ([Reason.NewSignal], some Dir.Short) := by
  refine ⟨by decide, ?_, by decide, ?_⟩
  · norm_num [runState, stepsOf, processBar, getScalars, decideBranch, closeAll,
      recordBar, updateAt, initState, determine_trend, trendOf, c1Lower, hcShift,
      pUnit, mkNumBar, long_signal, short_signal]
  · norm_num [runState, stepsOf, processBar, getScalars, decideBranch, closeAll,
      recordBar, updateAt, initState, determine_trend, trendOf, c1Lower, hcShift,
      pUnit, mkNumBar, long_signal, short_signal,
      trend_bullish_ne_bearish, trend_bearish_ne_bullish, dir_long_ne_short,
      dir_short_ne_long, opt_none_ne_some, opt_some_ne_none, opt_some_inj]

/-- C1 witness: the TrendChange part of the amended chain applied to a
concrete Long state whose stop is touched on a Bearish bar without a short
signal. -/
theorem C1_witness :
    (processBar pUnit hcBear stLong (mkNumBar 1 10 10 10 1 2)
        (mkNumBar 2 101 98 97 1 2)).position = none ∧
    (processBar pUnit hcBear stLong (mkNumBar 1 10 10 10 1 2)
        (mkNumBar 2 101 98 97 1 2)).trades = stLong.trades ++
      [{ entry := stLong.entry_price, exit_price := 97, side := Dir.Long,
         pnl := (97 - stLong.entry_price) * pUnit.lot_size, date := 2,
         reason := Reason.TrendChange, size := pUnit.lot_size }] :=
  (C1_first_match_chain pUnit hcBear).2.1 stLong
    (mkNumBar 1 10 10 10 1 2) (mkNumBar 2 101 98 97 1 2)
    101 98 97 1 2 1 2 rfl rfl (by decide) (by decide) (Or.inl (by decide))

/-- C2: on a bar where the Long stop/take branch executes with both the
stop (low <= stop_loss) and the take (high >= take_profit) touched, the
position closes with reason StopLoss at exit price stop_loss — the stop is
checked first; symmetrically a Short with both high >= stop_loss and
low <= take_profit closes with reason StopLoss at the stop_loss price. -/
theorem C2_stop_priority (p : Params) (higher : List HCandle) :
    (∀ (st : EngineState) (prev cur : Bar) (ch cl cc ces cel pes pel : ℚ),
      getScalars prev cur = some (ch, cl, cc, ces, cel, pes, pel) →
      st.position = some Dir.Long →
      ¬ long_signal higher cur.ts pes pel ces cel →
      ¬ short_signal higher cur.ts pes pel ces cel →
      determine_trend higher cur.ts ≠ Trend.Bearish →
      cl ≤ st.stop_loss →
      ch ≥ st.take_profit →
      (processBar p higher st prev cur).trades = st.trades ++
        [{ entry := st.entry_price, exit_price := st.stop_loss, side := Dir.Long,
           pnl := (st.stop_loss - st.entry_price) * p.lot_size, date := cur.ts,
           reason := Reason.StopLoss, size := p.lot_size }] ∧
      (processBar p higher st prev cur).position = none) ∧
    (∀ (st : EngineState) (prev cur : Bar) (ch cl cc ces cel pes pel : ℚ),
      getScalars prev cur = some (ch, cl, cc, ces, cel, pes, pel) →
      st.position = some Dir.Short →
      ¬ long_signal higher cur.ts pes pel ces cel →
      ¬ short_signal higher cur.ts pes pel ces cel →
      determine_trend higher cur.ts ≠ Trend.Bullish →
      ch ≥ st.stop_loss →
      cl ≤ st.take_profit →
      (processBar p higher st prev cur).trades = st.trades ++
        [{ entry := st.entry_price, exit_price := st.stop_loss, side := Dir.Short,
           pnl := (st.entry_price - st.stop_loss) * p.lot_size, date := cur.ts,
           reason := Reason.StopLoss, size := p.lot_size }] ∧
      (processBar p higher st prev cur).position = none) := by
  constructor
  · intro st prev cur ch cl cc ces cel pes pel hs hpos hn1 hn2 ht hsl htp
    rw [processBar_eq p higher st prev cur ch cl cc ces cel pes pel hs,
      decideBranch_longSLTP_hit p higher st cur.ts ch cl cc ces cel pes pel
        hn1 hn2 hpos ht (Or.inl hsl)]
    refine ⟨?_, rfl⟩
    rw [recordBar_trades]
    simp [hsl]
  · intro st prev cur ch cl cc ces cel pes pel hs hpos hn1 hn2 ht hsl htp
    rw [processBar_eq p higher st prev cur ch cl cc ces cel pes pel hs,
      decideBranch_shortSLTP_hit p higher st cur.ts ch cl cc ces cel pes pel
        hn1 hn2 hpos ht (Or.inl hsl)]
    refine ⟨?_, rfl⟩
    rw [recordBar_trades]
    simp [hsl]

/-- C2 witness: a Long at entry 100 with stop 99 and take 102 on a bar
with low 98 and high 103 (both levels touched) exits StopLoss at 99. -/
theorem C2_witness :
    (processBar pUnit hcBull stLong (mkNumBar 1 10 10 10 1 2)
        (mkNumBar 2 103 98 100 1 2)).trades = stLong.trades ++
      [{ entry := stLong.entry_price, exit_price := stLong.stop_loss, side := Dir.Long,
         pnl := (stLong.stop_loss - stLong.entry_price) * pUnit.lot_size, date := 2,
         reason := Reason.StopLoss, size := pUnit.lot_size }] ∧
    (processBar pUnit hcBull stLong (mkNumBar 1 10 10 10 1 2)
        (mkNumBar 2 103 98 100 1 2)).position = none :=
  (C2_stop_priority pUnit hcBull).1 stLong (mkNumBar 1 10 10 10 1 2)
    (mkNumBar 2 103 98 100 1 2) 103 98 100 1 2 1 2 rfl rfl
    (by decide) (by decide) (by decide) (by decide) (by decide)

/-- C3: the final capital, which is also the portfolio_value of the last
equity point, equals initial_capital plus the summed P&L of the emitted
ledger; and each single loop iteration preserves the quantity
capital minus realised-PnL-total, which is the step form of the same
conservation law. -/
theorem C3_capital_conservation (lower : List Bar) (higher : List HCandle)
    (cap : ℚ) (p : Params) :
    (∀ st : EngineState, runState lower higher cap p = some st →
      st.capital = cap + sumPnl st.trades ∧
      Option.map EquityPoint.portfolio_value st.equity.getLast? =
        some (cap + sumPnl st.trades)) ∧
    (∀ (st : EngineState) (prev cur : Bar),
      (processBar p higher st prev cur).capital -
          sumPnl (processBar p higher st prev cur).trades =
        st.capital - sumPnl st.trades) := by
  constructor
  · intro st h
    have hi := runState_engineInv lower higher cap p st h
    unfold EngineInv at hi
    obtain ⟨hcap, hlast, -, -, -, -⟩ := hi
    exact ⟨hcap, by rw [hlast, hcap]⟩
  · intro st prev cur
    rcases h : getScalars prev cur with _ | ⟨ch, cl, cc, ces, cel, pes, pel⟩
    · rw [processBar_skip p higher st prev cur h]
    · rw [processBar_eq p higher st prev cur ch cl cc ces cel pes pel h,
        recordBar_capital, recordBar_trades]
      obtain ⟨-, -, htm, hfm⟩ :=
        decideBranch_shape p higher st cur.ts ch cl cc ces cel pes pel
      rcases hb : (decideBranch p higher st cur.ts ch cl cc ces cel pes pel).2.1 with _ | _
      · obtain ⟨htr, hc, -⟩ := hfm hb
        rw [htr, hc]
      · obtain ⟨t, htr, hc, -, -, -⟩ := htm hb
        rw [htr, hc, sumPnl_append_single]
        ring

/-- C3 witness: conservation on the concrete c4Lower / hcBull run. -/
theorem C3_witness :
    c4St.capital = 500 + sumPnl c4St.trades ∧
    Option.map EquityPoint.portfolio_value c4St.equity.getLast? =
      some (500 + sumPnl c4St.trades) :=
  (C3_capital_conservation c4Lower hcBull 500 pUnit).1 c4St
    (getD_spec _ (runState_isSome c4Lower hcBull 500 pUnit
      (by simp [c4Lower]) (by simp [hcBull])))

/-- C4 (amended): on every processed bar a Trade is appended if and only if
a position is open and either an entry signal fires (the old position is
replaced by the newly opened one, which may have the same direction as the
one closed) or the position transitions to None (trend-reversal or
stop/take exit); every such close appends exactly one Trade, and no Trade
is appended while the position stays None. -/
theorem C4_trade_iff_close (p : Params) (higher : List HCandle) :
    ∀ (st : EngineState) (prev cur : Bar) (ch cl cc ces cel pes pel : ℚ),
      getScalars prev cur = some (ch, cl, cc, ces, cel, pes, pel) →
      ((st.position.isSome = true ∧
          (long_signal higher cur.ts pes pel ces cel ∨
            short_signal higher cur.ts pes pel ces cel ∨
            (processBar p higher st prev cur).position = none) →
          ∃ t : Trade, (processBar p higher st prev cur).trades = st.trades ++ [t]) ∧
        (¬ (st.position.isSome = true ∧
            (long_signal higher cur.ts pes pel ces cel ∨
              short_signal higher cur.ts pes pel ces cel ∨
              (processBar p higher st prev cur).position = none)) →
          (processBar p higher st prev cur).trades = st.trades)) := by
  intro st prev cur ch cl cc ces cel pes pel hs
  rw [processBar_eq p higher st prev cur ch cl cc ces cel pes pel hs]
  by_cases h1 : long_signal higher cur.ts pes pel ces cel
  · rcases hpos : st.position with _ | d
    · rw [decideBranch_longEntry_fromNone p higher st cur.ts ch cl cc ces cel pes pel h1 hpos]
      constructor
      · rintro ⟨hs', -⟩
        simp at hs'
      · intro _
        rw [recordBar_trades]
    · cases d
      · rw [decideBranch_longEntry_fromLong p higher st cur.ts ch cl cc ces cel pes pel h1 hpos]
        constructor
        · intro _
          exact ⟨_, by rw [recordBar_trades]⟩
        · intro hn
          exact absurd ⟨rfl, Or.inl h1⟩ hn
      · rw [decideBranch_longEntry_fromShort p higher st cur.ts ch cl cc ces cel pes pel h1 hpos]
        constructor
        · intro _
          exact ⟨_, by rw [recordBar_trades]⟩
        · intro hn
          exact absurd ⟨rfl, Or.inl h1⟩ hn
  · by_cases h2 : short_signal higher cur.ts pes pel ces cel
    · rcases hpos : st.position with _ | d
      · rw [decideBranch_shortEntry_fromNone p higher st cur.ts ch cl cc ces cel pes pel h1 h2 hpos]
        constructor
        · rintro ⟨hs', -⟩
          simp at hs'
        · intro _
          rw [recordBar_trades]
      · cases d
        · rw [decideBranch_shortEntry_fromLong p higher st cur.ts ch cl cc ces cel pes pel h1 h2 hpos]
          constructor
          · intro _
            exact ⟨_, by rw [recordBar_trades]⟩
          · intro hn
            exact absurd ⟨rfl, Or.inr (Or.inl h2)⟩ hn
        · rw [decideBranch_shortEntry_fromShort p higher st cur.ts ch cl cc ces cel pes pel h1 h2 hpos]
          constructor
          · intro _
            exact ⟨_, by rw [recordBar_trades]⟩
          · intro hn
            exact absurd ⟨rfl, Or.inr (Or.inl h2)⟩ hn
    · rcases hpos : st.position with _ | d
      · rw [decideBranch_noPosition p higher st cur.ts ch cl cc ces cel pes pel h1 h2 hpos]
        constructor
        · rintro ⟨hs', -⟩
          simp at hs'
        · intro _
          rw [recordBar_trades]
      · cases d
        · by_cases ht : determine_trend higher cur.ts = Trend.Bearish
          · rw [decideBranch_trendExit_long p higher st cur.ts ch cl cc ces cel pes pel h1 h2 hpos ht]
            constructor
            · intro _
              exact ⟨_, by rw [recordBar_trades]⟩
            · intro hn
              exact absurd ⟨rfl,
                Or.inr (Or.inr (by rw [recordBar_position]))⟩ hn
          · by_cases htc : cl ≤ st.stop_loss ∨ ch ≥ st.take_profit
            · rw [decideBranch_longSLTP_hit p higher st cur.ts ch cl cc ces cel pes pel h1 h2 hpos ht htc]
              constructor
              · intro _
                exact ⟨_, by rw [recordBar_trades]⟩
              · intro hn
                exact absurd ⟨rfl,
                  Or.inr (Or.inr (by rw [recordBar_position]))⟩ hn
            · rw [decideBranch_longSLTP_miss p higher st cur.ts ch cl cc ces cel pes pel h1 h2 hpos ht htc]
              constructor
              · rintro ⟨-, hl | hsh | hpn⟩
                · exact absurd hl h1
                · exact absurd hsh h2
                · have hpn' : st.position = none := hpn
                  rw [hpos] at hpn'
                  simp at hpn'
              · intro _
                rw [recordBar_trades]
        · by_cases ht : determine_trend higher cur.ts = Trend.Bullish
          · rw [decideBranch_trendExit_short p higher st cur.ts ch cl cc ces cel pes pel h1 h2 hpos ht]
            constructor
            · intro _
              exact ⟨_, by rw [recordBar_trades]⟩
            · intro hn
              exact absurd ⟨rfl,
                Or.inr (Or.inr (by rw [recordBar_position]))⟩ hn
          · by_cases htc : ch ≥ st.stop_loss ∨ cl ≤ st.take_profit
            · rw [decideBranch_shortSLTP_hit p higher st cur.ts ch cl cc ces cel pes pel h1 h2 hpos ht htc]
              constructor
              · intro _
                exact ⟨_, by rw [recordBar_trades]⟩
              · intro hn
                exact absurd ⟨rfl,
                  Or.inr (Or.inr (by rw [recordBar_position]))⟩ hn
            · rw [decideBranch_shortSLTP_miss p higher st cur.ts ch cl cc ces cel pes pel h1 h2 hpos ht htc]
              constructor
              · rintro ⟨-, hl | hsh | hpn⟩
                · exact absurd hl h1
                · exact absurd hsh h2
                · have hpn' : st.position = none := hpn
                  rw [hpos] at hpn'
                  simp at hpn'
              · intro _
                rw [recordBar_trades]

/-- C4 counterexample: in the c4Lower / hcBull run the only ledger entry is
a Long closed with reason NewSignal while the final position is again Long:
the trade was appended for a replacement by a SAME-direction position, so
appending is not restricted to None-transitions and opposing replacements
as the claim states. -/
theorem C4_counterexample :
    (runState c4Lower hcBull 500 pUnit).map
        (fun st => (st.trades.map (fun t => (t.side, t.reason)), st.position)) =
      some ([(Dir.Long, Reason.NewSignal)], some Dir.Long) := by
  norm_num [runState, stepsOf, processBar, getScalars, decideBranch, closeAll,
    recordBar, updateAt, initState, determine_trend, trendOf, c4Lower, hcBull,
    pUnit, mkNumBar, long_signal, short_signal,
    trend_bullish_ne_bearish, trend_bearish_ne_bullish, dir_long_ne_short,
    dir_short_ne_long, opt_none_ne_some, opt_some_ne_none, opt_some_inj]

/-- C4 witness: a long entry signal arriving while a Long is open appends
exactly one trade on that bar. -/
theorem C4_witness :
    (processBar pUnit hcBull stLong (mkNumBar 1 10 10 10 1 2)
        (mkNumBar 2 101 100 100 3 2)).trades.length = stLong.trades.length + 1 := by
  obtain ⟨t, ht⟩ :=
    (C4_trade_iff_close pUnit hcBull stLong (mkNumBar 1 10 10 10 1 2)
        (mkNumBar 2 101 100 100 3 2) 101 100 100 3 2 1 2 rfl).1
      ⟨rfl, Or.inl (by decide)⟩
  rw [ht]
  simp

/-- C5: for non-empty inputs the run produces a state whose equity curve
has one point per successfully processed bar plus the seed point (first
lower timestamp, initial capital, size 0), and whose last point carries
position_size lot_size when a position is open at the end and 0 when not. -/
theorem C5_equity_curve (lower : List Bar) (higher : List HCandle) (cap : ℚ)
    (p : Params) :
    (lower ≠ [] → higher ≠ [] → (runState lower higher cap p).isSome = true) ∧
    (∀ st : EngineState, runState lower higher cap p = some st →
      st.equity.length = processedCount lower + 1 ∧
      st.equity.head? =
        some { ts := (lower.headD default).ts, portfolio_value := cap,
               position_size := 0 } ∧
      Option.map EquityPoint.position_size st.equity.getLast? =
        some (if st.position.isSome then p.lot_size else 0)) := by
  constructor
  · exact fun hl hh => runState_isSome lower higher cap p hl hh
  · intro st h
    have hi := runState_engineInv lower higher cap p st h
    unfold EngineInv at hi
    obtain ⟨-, -, hsize, hhead, -, -⟩ := hi
    exact ⟨runState_equity_length lower higher cap p st h, hhead, hsize⟩

/-- C5 witness: the equity-curve shape on the concrete c4Lower run. -/
theorem C5_witness :
    c4St.equity.length = processedCount c4Lower + 1 ∧
    c4St.equity.head? =
      some { ts := (c4Lower.headD default).ts, portfolio_value := 500,
             position_size := 0 } ∧
    Option.map EquityPoint.position_size c4St.equity.getLast? =
      some (if c4St.position.isSome then pUnit.lot_size else 0) :=
  (C5_equity_curve c4Lower hcBull 500 pUnit).2 c4St
    (getD_spec _ (runState_isSome c4Lower hcBull 500 pUnit
      (by simp [c4Lower]) (by simp [hcBull])))

/-- In a strictly increasing candle series, the last element of the
as-of filter is the unique candle that dominates every candle at or before
the query timestamp. -/
theorem getLast?_filter_max (t : ℕ) :
    ∀ (l : List HCandle) (c : HCandle),
      List.Pairwise (fun a b => a.ts < b.ts) l → c ∈ l → c.ts ≤ t →
      (∀ x ∈ l, x.ts ≤ t → x.ts ≤ c.ts) →
      (l.filter (fun x => x.ts ≤ t)).getLast? = some c := by
  intro l
  induction l with
  | nil =>
    intro c _ hc
    simp at hc
  | cons a l ih =>
    intro c hp hc hct hmax
    obtain ⟨ha, hp'⟩ := List.pairwise_cons.mp hp
    rcases List.mem_cons.mp hc with rfl | hcl
    · have hfl : l.filter (fun x => x.ts ≤ t) = [] := by
        rw [List.filter_eq_nil_iff]
        intro x hx
        simp only [decide_eq_true_eq]
        intro hxt
        have h1 := hmax x (List.mem_cons_of_mem _ hx) hxt
        have h2 := ha x hx
        omega
      simp [List.filter_cons, hct, hfl]
    · have hat : a.ts ≤ t := le_of_lt (lt_of_lt_of_le (ha c hcl) hct)
      have hne : l.filter (fun x => x.ts ≤ t) ≠ [] := by
        intro h0
        have hcc := List.filter_eq_nil_iff.mp h0 c hcl
        simp [hct] at hcc
      have hrec := ih c hp' hcl hct
        (fun x hx hxt => hmax x (List.mem_cons_of_mem _ hx) hxt)
      have hstep : (a :: l).filter (fun x => x.ts ≤ t) =
          a :: l.filter (fun x => x.ts ≤ t) := by
        simp [List.filter_cons, hat]
      obtain ⟨y, ys, hys⟩ := List.exists_cons_of_ne_nil hne
      rw [hstep, hys, List.getLast?_cons_cons, ← hys]
      exact hrec

/-- C6: determine_trend returns the trend of the most recent
higher-timeframe candle with timestamp at most the query timestamp —
Bullish / Bearish / Neutral by comparing that candle's EMAs — returns
Neutral when no such candle exists, and at an exact timestamp tie returns
that candle's own trend. -/
theorem C6_trend_at (higher : List HCandle) (t : ℕ) :
    ((∀ c ∈ higher, ¬ c.ts ≤ t) → determine_trend higher t = Trend.Neutral) ∧
    (List.Pairwise (fun a b => a.ts < b.ts) higher →
      ∀ c ∈ higher, c.ts ≤ t → (∀ x ∈ higher, x.ts ≤ t → x.ts ≤ c.ts) →
        determine_trend higher t = trendOf c) ∧
    (List.Pairwise (fun a b => a.ts < b.ts) higher →
      ∀ c ∈ higher, c.ts = t → determine_trend higher t = trendOf c) := by
  refine ⟨?_, ?_, ?_⟩
  · intro hnone
    unfold determine_trend
    rw [List.filter_eq_nil_iff.mpr (fun x hx => by simpa using hnone x hx)]
    rfl
  · intro hp c hc hct hmax
    unfold determine_trend
    rw [getLast?_filter_max t higher c hp hc hct hmax]
  · intro hp c hc hct
    have hlast := getLast?_filter_max t higher c hp hc (le_of_eq hct)
      (fun x hx hxt => by rw [hct]; exact hxt)
    unfold determine_trend
    rw [hlast]

/-- C6 witness: at the exact timestamp of the second hcShift candle the
lookup returns that candle's own (Bearish) trend, not the earlier one's. -/
theorem C6_witness :
    determine_trend hcShift 10 = trendOf { ts := 10, emaShort := 1, emaLong := 2 } :=
  (C6_trend_at hcShift 10).2.2 (by decide) _ (by decide) rfl

/-- C7 (amended): a loop iteration is skipped exactly when one of the seven
converted values fails — the current bar's high, low, close, EMA_Short,
EMA_Long or the PREVIOUS bar's EMA_Short, EMA_Long — so a bar with
non-numeric EMA fields also causes the following bar to be skipped even
when that bar's own values are all numeric; a skipped iteration leaves the
engine state completely unchanged, so bars processed later behave as if the
skipped bars had not existed; the except handler logs nothing. -/
theorem C7_skip_condition (p : Params) (higher : List HCandle) :
    (∀ prev cur : Bar,
      (getScalars prev cur).isSome = true ↔
        (cur.high.isSome = true ∧ cur.low.isSome = true ∧ cur.close.isSome = true ∧
         cur.emaShort.isSome = true ∧ cur.emaLong.isSome = true ∧
         prev.emaShort.isSome = true ∧ prev.emaLong.isSome = true)) ∧
    (∀ (st : EngineState) (prev cur : Bar),
      getScalars prev cur = none → processBar p higher st prev cur = st) := by
  constructor
  · intro prev cur
    obtain ⟨pts, ph, pl, pc, pes, pel⟩ := prev
    obtain ⟨cts, chh, cll, ccc, ces, cel⟩ := cur
    cases chh <;> cases cll <;> cases ccc <;> cases ces <;> cases cel <;>
      cases pes <;> cases pel <;> simp [getScalars]
  · exact fun st prev cur h => processBar_skip p higher st prev cur h

/-- C7 counterexample: in c7Lower only bar 1 has a non-numeric field
(EMA_Short), bar 2 is fully numeric, yet the run processes zero bars (the
equity curve holds only the seed point, not the two points the claim
predicts): the iteration pairing bar 1 as previous row with bar 2 also
fails conversion, so the skip is not confined to the faulty bar. -/
theorem C7_counterexample :
    c7Lower.getD 2 default = mkNumBar 3 10 10 10 1 2 ∧
    getScalars (c7Lower.getD 0 default) (c7Lower.getD 1 default) = none ∧
    getScalars (c7Lower.getD 1 default) (c7Lower.getD 2 default) = none ∧
    (runState c7Lower hcBull 100 pUnit).map (fun st => st.equity.length) = some 1 := by
  refine ⟨rfl, rfl, rfl, ?_⟩
  norm_num [runState, stepsOf, processBar, getScalars, c7Lower, hcBull, pUnit,
    mkNumBar, initState]

/-- C7 witness: a skipped iteration leaves the state untouched. -/
theorem C7_witness :
    processBar pUnit hcBull stLong (c7Lower.getD 1 default)
      (c7Lower.getD 2 default) = stLong :=
  (C7_skip_condition pUnit hcBull).2 stLong (c7Lower.getD 1 default)
    (c7Lower.getD 2 default) rfl

/-- C8: a bar skipped for a data-conversion failure changes nothing: the
whole engine state — position, entry/stop/take levels, capital, ledger,
signal counters — is exactly as before, no equity point is appended for the
bar (leaving a gap in the equity curve at that timestamp), and the returns
table is untouched. -/
theorem C8_skip_preserves_state (p : Params) (higher : List HCandle) :
    ∀ (st : EngineState) (prev cur : Bar),
      getScalars prev cur = none →
      processBar p higher st prev cur = st ∧
      (processBar p higher st prev cur).equity = st.equity ∧
      (processBar p higher st prev cur).trades = st.trades ∧
      (processBar p higher st prev cur).returns = st.returns := by
  intro st prev cur h
  have he := processBar_skip p higher st prev cur h
  rw [he]
  exact ⟨rfl, rfl, rfl, rfl⟩

/-- C8 witness: the skipped bar of the c7Lower series leaves a concrete
Short-position state unchanged. -/
theorem C8_witness :
    processBar pUnit hcBull stShort (c7Lower.getD 0 default)
        (c7Lower.getD 1 default) = stShort ∧
    (processBar pUnit hcBull stShort (c7Lower.getD 0 default)
        (c7Lower.getD 1 default)).equity = stShort.equity ∧
    (processBar pUnit hcBull stShort (c7Lower.getD 0 default)
        (c7Lower.getD 1 default)).trades = stShort.trades ∧
    (processBar pUnit hcBull stShort (c7Lower.getD 0 default)
        (c7Lower.getD 1 default)).returns = stShort.returns :=
  C8_skip_preserves_state pUnit hcBull stShort (c7Lower.getD 0 default)
    (c7Lower.getD 1 default) rfl

/-- C9: a position still open when the loop ends is never force-closed: the
outputs of backtest_strategy are exactly the loop's final tables (no
post-loop trade is appended and the equity curve is returned as is), the
final capital contains only realised P&L (initial capital plus ledger
total, nothing for the open position), and the last equity point carries
position_size lot_size. -/
theorem C9_open_position_not_liquidated (lower : List Bar) (higher : List HCandle)
    (cap lot rp rr : ℚ) (st : EngineState) (d : Dir)
    (h : runState lower higher cap
      { lot_size := lot, risk_percent := rp, risk_reward := rr } = some st)
    (hpos : st.position = some d) :
    (backtest_strategy lower higher cap lot rp rr).trades = st.trades ∧
    (backtest_strategy lower higher cap lot rp rr).equity = st.equity ∧
    st.capital = cap + sumPnl st.trades ∧
    Option.map EquityPoint.position_size st.equity.getLast? = some lot := by
  have hb := backtest_strategy_eq lower higher cap lot rp rr st h
  have hi := runState_engineInv lower higher cap
    { lot_size := lot, risk_percent := rp, risk_reward := rr } st h
  unfold EngineInv at hi
  obtain ⟨hcap, -, hsize, -, -, -⟩ := hi
  rw [hpos] at hsize
  exact ⟨by rw [hb], by rw [hb], hcap, by simpa using hsize⟩

/-- C9 witness: the c4Lower run ends with an open Long whose lot size shows
in the last equity point while capital holds only the realised P&L. -/
theorem C9_witness :
    (backtest_strategy c4Lower hcBull 500 1 1 2).trades = c4St.trades ∧
    (backtest_strategy c4Lower hcBull 500 1 1 2).equity = c4St.equity ∧
    c4St.capital = 500 + sumPnl c4St.trades ∧
    Option.map EquityPoint.position_size c4St.equity.getLast? = some 1 :=
  C9_open_position_not_liquidated c4Lower hcBull 500 1 1 2 c4St Dir.Long
    (getD_spec _ (runState_isSome c4Lower hcBull 500 pUnit
      (by simp [c4Lower]) (by simp [hcBull])))
    (by norm_num [c4St, runState, stepsOf, processBar, getScalars, decideBranch,
      closeAll, recordBar, updateAt, initState, determine_trend, trendOf,
      c4Lower, hcBull, pUnit, mkNumBar, long_signal, short_signal,
      trend_bullish_ne_bearish, trend_bearish_ne_bullish, dir_long_ne_short,
      dir_short_ne_long, opt_none_ne_some, opt_some_ne_none, opt_some_inj])

/-- C10: the returns table has exactly one row per lower-timeframe bar —
bar 0 and conversion-skipped bars included, unlike the equity curve — a row
is nonzero only at the date of a recorded trade, and on a bar that closes a
trade the written value is pnl / (capital - pnl) computed from the
post-close capital, with 0 substituted when that denominator is 0; on a
bar that closes nothing the table is unchanged. -/
theorem C10_returns_series (p : Params) (higher : List HCandle) :
    (∀ (lower : List Bar) (cap : ℚ) (st : EngineState),
      runState lower higher cap p = some st →
      st.returns.map Prod.fst = lower.map Bar.ts ∧
      (∀ e ∈ st.returns, e.2 ≠ 0 → ∃ tr ∈ st.trades, tr.date = e.1)) ∧
    (∀ (st : EngineState) (prev cur : Bar),
      ((processBar p higher st prev cur).trades = st.trades →
        (processBar p higher st prev cur).returns = st.returns) ∧
      (∀ t : Trade,
        (processBar p higher st prev cur).trades = st.trades ++ [t] →
        (processBar p higher st prev cur).returns =
          updateAt st.returns cur.ts
            (if (processBar p higher st prev cur).capital - t.pnl ≠ 0 then
              t.pnl / ((processBar p higher st prev cur).capital - t.pnl)
            else 0))) := by
  constructor
  · intro lower cap st h
    have hi := runState_engineInv lower higher cap p st h
    unfold EngineInv at hi
    obtain ⟨-, -, -, -, hkeys, hval⟩ := hi
    exact ⟨hkeys, hval⟩
  · intro st prev cur
    rcases h : getScalars prev cur with _ | ⟨ch, cl, cc, ces, cel, pes, pel⟩
    · rw [processBar_skip p higher st prev cur h]
      constructor
      · intro _
        rfl
      · intro t ht
        have hlen := congrArg List.length ht
        simp at hlen
    · rw [processBar_eq p higher st prev cur ch cl cc ces cel pes pel h,
        recordBar_trades, recordBar_returns, recordBar_capital]
      obtain ⟨-, hrt, htm, hfm⟩ :=
        decideBranch_shape p higher st cur.ts ch cl cc ces cel pes pel
      rcases hb : (decideBranch p higher st cur.ts ch cl cc ces cel pes pel).2.1 with _ | _
      · obtain ⟨htr, -, -⟩ := hfm hb
        constructor
        · intro _
          simp [hrt]
        · intro t ht
          rw [htr] at ht
          have hlen := congrArg List.length ht
          simp at hlen
      · obtain ⟨t0, htr, -, hp0, -, -⟩ := htm hb
        constructor
        · intro hteq
          rw [htr] at hteq
          have hlen := congrArg List.length hteq
          simp at hlen
        · intro t ht
          rw [htr] at ht
          have ht0 : t0 = t := by
            have h2 := List.append_cancel_left ht
            simpa using h2
          subst ht0
          rw [hrt, hp0]
          simp

/-- C10 witness: the returns table of the c7Lower run (two skipped bars)
still keys one row per lower bar, bar 0 included. -/
theorem C10_witness :
    c7St.returns.map Prod.fst = c7Lower.map Bar.ts :=
  ((C10_returns_series pUnit hcBull).1 c7Lower 100 c7St
    (getD_spec _ (runState_isSome c7Lower hcBull 100 pUnit
      (by simp [c7Lower]) (by simp [hcBull])))).1
